import Mathlib

/-!
Shallow embedding of the bms-dl download tool: URL resolution (resolve.rs),
download retry and filename handling (download.rs), archive extraction and
path-containment checks (archive.rs), and the extraction workspace life cycle
(main.rs).  Network and external-library effects are abstracted as explicit
oracle parameters; everything else is translated directly from the source.
-/

namespace BmsDl

/-!
String primitives are re-implemented over character lists so that every
definition evaluates by kernel reduction (`String.splitOn` and friends do
not).  Each mirrors the corresponding Rust `str` method; case mapping and
whitespace are ASCII models of Rust's Unicode versions, which agree on every
input treated here. -/

/-- Substring test, mirroring Rust `str::contains` for string patterns. -/
def strContains (s pat : String) : Bool :=
  decide (pat.data <:+: s.data)

/-- Rust `str::starts_with`. -/
def strStartsWith (s pat : String) : Bool :=
  pat.data.isPrefixOf s.data

/-- Rust `str::ends_with`. -/
def strEndsWith (s pat : String) : Bool :=
  decide (pat.data <:+ s.data)

/-- ASCII lower-casing of one character. -/
def asciiToLower (c : Char) : Char :=
  if 65 ≤ c.toNat && c.toNat ≤ 90 then Char.ofNat (c.toNat + 32) else c

/-- Rust `str::to_lowercase` (ASCII model). -/
def strToLower (s : String) : String :=
  ⟨s.data.map asciiToLower⟩

/-- ASCII whitespace. -/
def isAsciiWhitespace (c : Char) : Bool :=
  c = ' ' || c = '\t' || c = '\n' || c = '\r'

/-- Rust `str::trim` (ASCII model). -/
def strTrim (s : String) : String :=
  ⟨((s.data.dropWhile isAsciiWhitespace).reverse.dropWhile isAsciiWhitespace).reverse⟩

/-- Join with a separator. -/
def strIntercalate (sep : String) : List String → String
  | [] => ""
  | [x] => x
  | x :: xs => x ++ sep ++ strIntercalate sep xs

/-- Greedy left-to-right split on a non-empty pattern (Rust `str::split` with
a string pattern); the fuel (one unit per consumed character) never runs
out. -/
def splitOnListGo (pat : List Char) : Nat → List Char → List Char → List (List Char)
  | _, [], acc => [acc.reverse]
  | 0, rest, acc => [acc.reverse ++ rest]
  | fuel + 1, c :: cs, acc =>
    if pat.isPrefixOf (c :: cs) then
      acc.reverse :: splitOnListGo pat fuel ((c :: cs).drop pat.length) []
    else splitOnListGo pat fuel cs (c :: acc)

/-- Split a string on a pattern (Rust `str::split`; on an empty pattern it
returns the string whole, a case never used by the source). -/
def strSplitOn (s pat : String) : List String :=
  if pat = "" then [s]
  else (splitOnListGo pat.data s.data.length s.data []).map (fun cs => (⟨cs⟩ : String))

/-- Text after the first occurrence of `pat` in `s` (Rust `find` + slice),
or `none` when `pat` does not occur.  `pat` is assumed non-empty. -/
def strAfterFirst (s pat : String) : Option String :=
  match strSplitOn s pat with
  | [] => none
  | [_] => none
  | _ :: r :: rs => some (strIntercalate pat (r :: rs))

/-- A resolved download URL together with the URL it was resolved from
(struct `ResolvedUrl` in resolve.rs). -/
structure ResolvedUrl where
  url : String
  original : String
deriving Repr, DecidableEq

/-! ## Retry classification and the download attempt loop (download.rs) -/

/-- `is_retryable` from download.rs: HTTP 4xx and confirmed-markup outcomes are
terminal, everything else is retried. -/
def is_retryable (msg : String) : Bool :=
  if strContains msg "status client error" then false
  else if strContains msg "server returned HTML"
      || strContains msg "Dropbox file has been removed"
      || strContains msg "Google Drive file requires authentication"
      || strContains msg "Google Drive returned HTML confirmation"
      || strContains msg "downloaded file is HTML" then false
  else true

/-- The loop body family of `for attempt in 0..3` in `download_file`.
`tryResult i` is the outcome of `try_download` on attempt `i` (an oracle for
the network); `remaining` counts the loop iterations still allowed (so the
current attempt index is `3 - remaining`).  Returns the final result, the
number of attempts made, and the list of backoff delays (in seconds) slept
before attempts. -/
def download_file_go (tryResult : Nat → Except String String) :
    (remaining : Nat) → (lastError : Option String) →
    Except String String × Nat × List Nat
  | 0, lastError =>
    match lastError with
    | some e => (.error e, 0, [])
    | none => (.error "unreachable: no attempt made", 0, [])
  | remaining + 1, _ =>
    let attempt := 3 - (remaining + 1)
    let ds : List Nat := if 0 < attempt then [2 ^ (2 * attempt)] else []
    match tryResult attempt with
    | .ok path => (.ok path, 1, ds)
    | .error e =>
      if is_retryable e then
        let next := download_file_go tryResult remaining (some e)
        (next.1, next.2.1 + 1, ds ++ next.2.2)
      else (.error e, 1, ds)

/-- `download_file` from download.rs: three loop iterations, starting with no
recorded error. -/
def download_file (tryResult : Nat → Except String String) :
    Except String String × Nat × List Nat :=
  download_file_go tryResult 3 none

/-! ## Bytes and text encodings

UTF-8 encoding/decoding and percent-decoding model the behaviour of the
external `std::str`, `urlencoding` and `form_urlencoded` libraries used by the
source. -/

/-- UTF-8 encoding of a single character. -/
def charUtf8 (c : Char) : List Nat :=
  let n := c.toNat
  if n < 0x80 then [n]
  else if n < 0x800 then [0xC0 + n / 64, 0x80 + n % 64]
  else if n < 0x10000 then [0xE0 + n / 4096, 0x80 + (n / 64) % 64, 0x80 + n % 64]
  else [0xF0 + n / 262144, 0x80 + (n / 4096) % 64, 0x80 + (n / 64) % 64, 0x80 + n % 64]

/-- UTF-8 encoding of a string. -/
def strUtf8 (s : String) : List Nat :=
  (s.data.map charUtf8).flatten

/-- Is `b` a UTF-8 continuation byte? -/
def isCont (b : Nat) : Bool := 0x80 ≤ b && b < 0xC0

/-- Strict UTF-8 decoder (model of Rust `std::str::from_utf8` validity,
rejecting overlong forms, surrogates and out-of-range sequences). -/
def utf8DecodeCore : List Nat → Option (List Char)
  | [] => some []
  | b :: rest =>
    if b < 0x80 then
      (utf8DecodeCore rest).map (Char.ofNat b :: ·)
    else if 0xC2 ≤ b && b ≤ 0xDF then
      match rest with
      | b1 :: rest1 =>
        if isCont b1 then
          (utf8DecodeCore rest1).map (Char.ofNat ((b - 0xC0) * 64 + (b1 - 0x80)) :: ·)
        else none
      | [] => none
    else if 0xE0 ≤ b && b ≤ 0xEF then
      match rest with
      | b1 :: b2 :: rest2 =>
        let headOk :=
          if b = 0xE0 then 0xA0 ≤ b1 && b1 ≤ 0xBF
          else if b = 0xED then 0x80 ≤ b1 && b1 ≤ 0x9F
          else isCont b1
        if headOk && isCont b2 then
          (utf8DecodeCore rest2).map
            (Char.ofNat ((b - 0xE0) * 4096 + (b1 - 0x80) * 64 + (b2 - 0x80)) :: ·)
        else none
      | _ => none
    else if 0xF0 ≤ b && b ≤ 0xF4 then
      match rest with
      | b1 :: b2 :: b3 :: rest3 =>
        let headOk :=
          if b = 0xF0 then 0x90 ≤ b1 && b1 ≤ 0xBF
          else if b = 0xF4 then 0x80 ≤ b1 && b1 ≤ 0x8F
          else isCont b1
        if headOk && isCont b2 && isCont b3 then
          (utf8DecodeCore rest3).map
            (Char.ofNat ((b - 0xF0) * 262144 + (b1 - 0x80) * 4096 +
              (b2 - 0x80) * 64 + (b3 - 0x80)) :: ·)
        else none
      | _ => none
    else none

/-- Strict UTF-8 decode of a byte list to a string. -/
def utf8Decode (bs : List Nat) : Option String :=
  (utf8DecodeCore bs).map (fun cs => ⟨cs⟩)

/-- Hexadecimal digit value of a character, if any. -/
def hexVal (c : Char) : Option Nat :=
  if '0' ≤ c && c ≤ '9' then some (c.toNat - 48)
  else if 'a' ≤ c && c ≤ 'f' then some (c.toNat - 87)
  else if 'A' ≤ c && c ≤ 'F' then some (c.toNat - 70)
  else none

/-- Percent-decoding to raw bytes: a `%` followed by two hex digits becomes one
byte, anything else is passed through as its UTF-8 bytes (model of the
`urlencoding` crate's decoder). -/
def percentDecodeGo : Nat → List Char → List Nat
  | _, [] => []
  | 0, cs => (cs.map charUtf8).flatten
  | fuel + 1, c :: rest =>
    if c = '%' then
      match rest with
      | a :: b :: rest2 =>
        match hexVal a, hexVal b with
        | some x, some y => (16 * x + y) :: percentDecodeGo fuel rest2
        | _, _ => charUtf8 '%' ++ percentDecodeGo fuel rest
      | _ => charUtf8 c ++ percentDecodeGo fuel rest
    else charUtf8 c ++ percentDecodeGo fuel rest

/-- Percent-decoding entry point; the fuel (one unit per consumed character)
never runs out. -/
def percentDecodeBytes (cs : List Char) : List Nat :=
  percentDecodeGo cs.length cs

/-- `urlencoding::decode`: percent-decode, then require valid UTF-8. -/
def urldecode (s : String) : Option String :=
  utf8Decode (percentDecodeBytes s.data)

/-- `form_urlencoded` decoding of one query key or value: `+` means space,
percent sequences are decoded, and invalid UTF-8 is replaced lossily
(modelled by a byte-to-char fallback, never reached on the inputs treated
here). -/
def formDecode (s : String) : String :=
  let bytes := percentDecodeBytes (s.data.map (fun c => if c = '+' then ' ' else c))
  match utf8DecodeCore bytes with
  | some cs => ⟨cs⟩
  | none => ⟨bytes.map Char.ofNat⟩

/-- Upper-case hexadecimal digit. -/
def hexDigit (n : Nat) : Char :=
  if n < 10 then Char.ofNat (48 + n) else Char.ofNat (55 + n)

/-- `form_urlencoded` serializer byte encoding: alphanumerics and `*-._` kept,
space becomes `+`, every other byte becomes `%XX`. -/
def formEncodeByte (b : Nat) : String :=
  if b = 32 then "+"
  else if (48 ≤ b && b ≤ 57) || (65 ≤ b && b ≤ 90) || (97 ≤ b && b ≤ 122)
      || b = 42 || b = 45 || b = 46 || b = 95 then
    ⟨[Char.ofNat b]⟩
  else
    ⟨['%', hexDigit (b / 16), hexDigit (b % 16)]⟩

/-- `form_urlencoded` encoding of one query key or value. -/
def formEncode (s : String) : String :=
  ((strUtf8 s).map formEncodeByte).foldl (fun a b => a ++ b) ""

/-- Serialize query pairs as `k=v` joined by `&` (the `url` crate's
`query_pairs_mut` serializer). -/
def serializePairs (pairs : List (String × String)) : String :=
  strIntercalate "&" (pairs.map (fun kv => formEncode kv.1 ++ "=" ++ formEncode kv.2))

/-! ## URL model (the external `url` crate)

Only the parts the source uses: scheme, host, path, raw query, decoded query
pairs, serialization. -/

/-- Parsed absolute URL. -/
structure Uri where
  scheme : String
  host : String
  path : String
  query : Option String
deriving Repr, DecidableEq

/-- Parse one raw query piece into a decoded key/value pair
(`form_urlencoded::parse` semantics: empty pieces are skipped, the first `=`
separates key from value, a piece without `=` has value `""`). -/
def parseQueryPiece (piece : String) : Option (String × String) :=
  if piece = "" then none
  else
    match strAfterFirst piece "=" with
    | some v => some (formDecode ((strSplitOn piece "=").headD ""), formDecode v)
    | none => some (formDecode piece, "")

/-- Decoded query pairs of a raw query string. -/
def parseQueryPairs (q : String) : List (String × String) :=
  (strSplitOn q "&").filterMap parseQueryPiece

/-- `Url::parse` model for absolute `scheme://host...` URLs: splits authority,
path, query; drops any fragment; normalizes an empty path to `/`.  Fails when
there is no `://` or the host is empty. -/
def parseUri (s : String) : Option Uri :=
  match strAfterFirst s "://" with
  | none => none
  | some rest =>
    let scheme := ((strSplitOn s "://").headD "")
    if scheme = "" then none
    else
      let authChars := rest.data.takeWhile (fun c => c ≠ '/' && c ≠ '?' && c ≠ '#')
      let afterAuth := rest.data.drop authChars.length
      let authority : String := ⟨authChars⟩
      let hostPart := (strSplitOn authority "@").getLastD authority
      let host := (strSplitOn hostPart ":").headD ""
      if host = "" then none
      else
        let pathChars := afterAuth.takeWhile (fun c => c ≠ '?' && c ≠ '#')
        let afterPath := afterAuth.drop pathChars.length
        let path : String := if pathChars = [] then "/" else ⟨pathChars⟩
        let query : Option String :=
          match afterPath with
          | '?' :: qrest => some ⟨qrest.takeWhile (· ≠ '#')⟩
          | _ => none
        some ⟨scheme, host, path, query⟩

/-- Decoded query pairs of a URL (`Url::query_pairs`). -/
def Uri.queryPairs (u : Uri) : List (String × String) :=
  parseQueryPairs (u.query.getD "")

/-- Serialize a URL back to a string (`Url::to_string`). -/
def uriToString (u : Uri) : String :=
  u.scheme ++ "://" ++ u.host ++ u.path ++
    (match u.query with | some q => "?" ++ q | none => "")

/-! ## URL resolution (resolve.rs)

The network-performing resolvers (`resolve_manbow`, `resolve_venue_bmssearch`,
`resolve_generic`) perform HTTP requests and browser launches; they are
abstracted as an oracle record.  The host dispatch, the pure rewrite rules
and the candidate scan are translated directly. -/

/-- Oracle for the three network-performing resolver arms. -/
structure NetResolvers where
  manbow : String → Except String ResolvedUrl
  venue : String → Except String ResolvedUrl
  generic : String → Except String ResolvedUrl

/-- The `/file/d/{id}` extraction chain in `resolve_google_drive`
(`path.split("/file/d/").nth(1).and_then(split('/').next()).filter(non-empty)`). -/
def driveIdFromPath (path : String) : Option String :=
  match (strSplitOn path "/file/d/")[1]? with
  | some s =>
    let seg := (strSplitOn s "/").headD ""
    if seg = "" then none else some seg
  | none => none

/-- `resolve_google_drive` from resolve.rs: extract the file id from a
`/file/d/{id}` path segment, else from the `id` query parameter, and rewrite
to the canonical export-download URL. -/
def resolve_google_drive (raw_url : String) : Except String ResolvedUrl :=
  match parseUri raw_url with
  | none => .error "url parse error"
  | some parsed =>
    let file_id : Option String :=
      match driveIdFromPath parsed.path with
      | some v => some v
      | none => (parsed.queryPairs.find? (fun kv => kv.1 = "id")).map (fun kv => kv.2)
    match file_id with
    | none => .error ("failed to extract Google Drive file ID from " ++ raw_url)
    | some fid =>
      .ok ⟨"https://drive.google.com/uc?export=download&id=" ++ fid ++ "&confirm=t", raw_url⟩

/-- `resolve_dropbox` from resolve.rs: map every `dl` query parameter to `1`,
re-serializing the full pair list when a `dl` pair exists, otherwise appending
`dl=1` to the query. -/
def resolve_dropbox (raw_url : String) : Except String ResolvedUrl :=
  match parseUri raw_url with
  | none => .error "url parse error"
  | some parsed =>
    let pairs := parsed.queryPairs.map (fun kv => if kv.1 = "dl" then (kv.1, "1") else kv)
    let has_dl := pairs.any (fun kv => kv.1 = "dl")
    let appended : String :=
      match parsed.query with
      | some q => if q = "" then "dl=1" else q ++ "&dl=1"
      | none => "dl=1"
    let newUri : Uri :=
      if has_dl then { parsed with query := some (serializePairs pairs) }
      else { parsed with query := some appended }
    .ok ⟨uriToString newUri, raw_url⟩

/-- The archive extensions accepted as direct download links. -/
def archive_extensions : List String := [".zip", ".rar", ".7z", ".lzh"]

/-- The hosting domains whose candidate links are resolved recursively. -/
def hosting_domains : List String :=
  ["drive.google.com", "dropbox.com", "www.dropbox.com", "onedrive.live.com", "1drv.ms"]

/-- `resolve_url` from resolve.rs: dispatch on the URL's host; unknown hosts
whose path ends in an archive extension pass through unchanged, the rest go to
the generic resolver. -/
def resolve_url (net : NetResolvers) (raw_url : String) : Except String ResolvedUrl :=
  match parseUri raw_url with
  | none => .error "url parse error"
  | some parsed =>
    let host := parsed.host
    if host = "drive.google.com" then resolve_google_drive raw_url
    else if host = "dropbox.com" || host = "www.dropbox.com"
        || host = "dl.dropboxusercontent.com" then resolve_dropbox raw_url
    else if host = "manbow.nothing.sh" then net.manbow raw_url
    else if host = "venue.bmssearch.net" then net.venue raw_url
    else if host = "mega.nz" then
      .error "mega.nz is not supported (encryption API required)"
    else
      let path_lower := strToLower parsed.path
      if archive_extensions.any (fun ext => strEndsWith path_lower ext) then
        .ok ⟨raw_url, raw_url⟩
      else net.generic raw_url

/-- Is this candidate a direct archive link (archive extension on the path
component, or on the raw string when it does not parse as a URL)? -/
def candidateIsArchive (candidate : String) : Bool :=
  match parseUri candidate with
  | some parsed => archive_extensions.any (fun ext => strEndsWith (strToLower parsed.path) ext)
  | none => archive_extensions.any (fun ext => strEndsWith (strToLower candidate) ext)

/-- Does this candidate's host match a known hosting domain? -/
def candidateIsHosting (candidate : String) : Bool :=
  match parseUri candidate with
  | some parsed => hosting_domains.any (fun d => strContains parsed.host d)
  | none => false

/-- `find_download_from_candidates` from resolve.rs: scan candidates in order;
an archive-extension link is accepted immediately (with `raw_url` recorded as
`original`), a hosting-domain link is resolved recursively via `resolve_url`
and that result returned unchanged. -/
def find_download_from_candidates (net : NetResolvers) (candidates : List String)
    (raw_url : String) : Option (Except String ResolvedUrl) :=
  match candidates with
  | [] => none
  | c :: rest =>
    if candidateIsArchive c then some (.ok ⟨c, raw_url⟩)
    else if candidateIsHosting c then some (resolve_url net c)
    else find_download_from_candidates net rest raw_url

/-! ## Filename selection and saving (download.rs) -/

/-- The slice of an HTTP response that filename selection and saving read:
the `Content-Disposition` header, the final (post-redirect) response URL, and
the body bytes. -/
structure HttpResponse where
  contentDisposition : Option String
  finalUrl : String
  body : List Nat
deriving Repr

/-- `sanitize_filename` from download.rs: replace filesystem-unsafe characters
with `_`. -/
def sanitize_filename (name : String) : String :=
  ⟨name.data.map (fun c =>
    if c = '/' || c = '\\' || c = ':' || c = '*' || c = '?' || c = '"'
        || c = '<' || c = '>' || c = '|' || c = Char.ofNat 0 then '_' else c)⟩

/-- `parse_content_disposition` from download.rs: prefer the RFC 5987
`filename*=UTF-8''...` parameter (percent-decoded), fall back to
`filename=...`. -/
def parse_content_disposition (header : String) : Option String :=
  let viaStar : Option String :=
    match strAfterFirst header "filename*=" with
    | some rest =>
      let stripped : Option String :=
        if strStartsWith rest "UTF-8''" then some ⟨rest.data.drop 7⟩
        else if strStartsWith rest "utf-8''" then some ⟨rest.data.drop 7⟩
        else none
      match stripped with
      | some rest2 =>
        let upto := (strSplitOn rest2 ";").headD rest2
        urldecode (strTrim upto)
      | none => none
    | none => none
  match viaStar with
  | some d => some d
  | none =>
    match strAfterFirst header "filename=" with
    | some rest0 =>
      let rest : String := ⟨rest0.data.dropWhile (· = '"')⟩
      let upto : String :=
        match rest.data.findIdx? (· = '"') with
        | some i => ⟨rest.data.take i⟩
        | none =>
          match rest.data.findIdx? (· = ';') with
          | some i => ⟨rest.data.take i⟩
          | none => rest
      let name := strTrim upto
      if name ≠ "" then some name else none
    | none => none

/-- `extract_filename` from download.rs: a name parsed from the
`Content-Disposition` header, else the percent-decoded last path segment of
the URL; both sanitized. -/
def extract_filename (resp : HttpResponse) (url : String) : Option String :=
  let viaHeader : Option String :=
    match resp.contentDisposition with
    | some cd => (parse_content_disposition cd).map sanitize_filename
    | none => none
  match viaHeader with
  | some n => some n
  | none =>
    match parseUri url with
    | none => none
    | some parsed =>
      let segment := (strSplitOn parsed.path "/").getLastD ""
      if segment = "" then none
      else (urldecode segment).map sanitize_filename

/-- The filename `save_response` actually uses: the extracted name, else the
caller-supplied fallback (download.rs line 174). -/
def usedFilename (resp : HttpResponse) (fallback_name : String) : String :=
  (extract_filename resp resp.finalUrl).getD fallback_name

/-- Flat filesystem model: an association list from paths to byte contents. -/
abbrev FS := List (String × List Nat)

/-- Contents at a path. -/
def fsLookup (fs : FS) (p : String) : Option (List Nat) :=
  (fs.find? (fun e => e.1 = p)).map (fun e => e.2)

/-- Delete a path. -/
def fsRemove (fs : FS) (p : String) : FS :=
  fs.filter (fun e => e.1 ≠ p)

/-- Write contents at a path. -/
def fsSet (fs : FS) (p : String) (v : List Nat) : FS :=
  (p, v) :: fsRemove fs p

/-- Atomic rename. -/
def fsRename (fs : FS) (src dst : String) : FS :=
  match fsLookup fs src with
  | some v => fsSet (fsRemove fs src) dst v
  | none => fs

/-- `save_response` from download.rs: stream the body to a dot-prefixed
`.tmp` sibling, atomically rename to the final name, then re-validate the
renamed file's bytes with the markup heuristic and delete it on a match.
`isHtml` models `archive::is_html`.
Modelled from the spec: `archive::is_html` itself is absent from the provided
source (only its callers are); per the spec it is "a magic/heuristic check on
actual bytes, independent of the header-reported content type", so it is kept
abstract as a parameter. -/
def save_response (isHtml : List Nat → Bool) (resp : HttpResponse)
    (output_dir fallback_name : String) (fs : FS) : Except String String × FS :=
  let filename := usedFilename resp fallback_name
  let dest := output_dir ++ "/" ++ filename
  let tmp := output_dir ++ "/." ++ filename ++ ".tmp"
  let fs1 := fsSet fs tmp resp.body
  let fs2 := fsRename fs1 tmp dest
  if isHtml ((fsLookup fs2 dest).getD []) then
    (.error "downloaded file is HTML, not an archive (possible redirect or error page)",
      fsRemove fs2 dest)
  else (.ok dest, fs2)

/-! ## The two-phase download executor (download.rs) -/

/-- `DownloadTask` from download.rs. -/
structure DownloadTask where
  url : String
  output_dir : String
  fallback_name : String
  label : String
deriving Repr, DecidableEq

/-- `DownloadResult` from download.rs. -/
inductive DownloadResult where
  | Success (path : String)
  | Skipped (url reason : String)
  | Failed (url error : String)
deriving Repr, DecidableEq

/-- Result of awaiting a spawned worker: its value, or a panic caught at the
join point. -/
inductive JoinOutcome (α : Type) where
  | ok (a : α)
  | panicked (msg : String)

/-- What happens inside one phase-2 worker after it acquires the semaphore:
output-directory creation fails, or the transfer protocol succeeds or fails. -/
inductive TransferStep where
  | mkdirErr (e : String)
  | dlOk (path : String)
  | dlErr (e : String)

/-- Body of one phase-2 worker (download.rs lines 420-458), given the step
outcome. -/
def transferWorkerResult (resolved : ResolvedUrl) (task : DownloadTask) :
    TransferStep → DownloadResult
  | .mkdirErr e => .Failed task.url e
  | .dlOk path => .Success path
  | .dlErr e =>
    .Failed task.url
      (if resolved.url ≠ task.url then "[resolved: " ++ resolved.url ++ "] " ++ e else e)

/-- One step of the phase-1 join loop (download.rs lines 384-400): a resolved
task joins `resolved_tasks`, a failed resolution appends `Skipped`, a panicked
worker appends `Failed`. -/
def phase1Step (resolveJoin : Nat → JoinOutcome (Except String ResolvedUrl))
    (acc : List (ResolvedUrl × DownloadTask) × List DownloadResult)
    (it : Nat × DownloadTask) : List (ResolvedUrl × DownloadTask) × List DownloadResult :=
  match resolveJoin it.1 with
  | .ok (.ok r) => (acc.1 ++ [(r, it.2)], acc.2)
  | .ok (.error e) => (acc.1, acc.2 ++ [.Skipped it.2.url e])
  | .panicked m => (acc.1, acc.2 ++ [.Failed "unknown" ("resolve task panicked: " ++ m)])

/-- The `resolved_tasks` list after phase 1. -/
def resolvedTasksOf (resolveJoin : Nat → JoinOutcome (Except String ResolvedUrl))
    (tasks : List DownloadTask) : List (ResolvedUrl × DownloadTask) :=
  (tasks.enum.foldl (phase1Step resolveJoin) ([], [])).1

/-- The results accumulated during phase 1. -/
def phase1ResultsOf (resolveJoin : Nat → JoinOutcome (Except String ResolvedUrl))
    (tasks : List DownloadTask) : List DownloadResult :=
  (tasks.enum.foldl (phase1Step resolveJoin) ([], [])).2

/-- The phase-1 contribution of one enumerated input task to `resolved_tasks`
(`some` exactly when its resolution succeeded). -/
def phase1Resolved (resolveJoin : Nat → JoinOutcome (Except String ResolvedUrl))
    (it : Nat × DownloadTask) : Option (ResolvedUrl × DownloadTask) :=
  match resolveJoin it.1 with
  | .ok (.ok r) => some (r, it.2)
  | _ => none

/-- The phase-1 contribution of one enumerated input task to the result list
(`some` exactly when its resolution failed or its worker panicked). -/
def phase1Result (resolveJoin : Nat → JoinOutcome (Except String ResolvedUrl))
    (it : Nat × DownloadTask) : Option DownloadResult :=
  match resolveJoin it.1 with
  | .ok (.ok _) => none
  | .ok (.error e) => some (.Skipped it.2.url e)
  | .panicked m => some (.Failed "unknown" ("resolve task panicked: " ++ m))

/-- Joining one phase-2 worker (download.rs lines 461-468): its result, or
`Failed` when it panicked. -/
def transferResultOf (transferJoin : Nat → JoinOutcome TransferStep)
    (it : Nat × (ResolvedUrl × DownloadTask)) : DownloadResult :=
  match transferJoin it.1 with
  | .ok st => transferWorkerResult it.2.1 it.2.2 st
  | .panicked m => .Failed "unknown" ("task panicked: " ++ m)

/-- `execute_downloads` from download.rs.  `resolveJoin i` is the joined
outcome of the phase-1 worker spawned for input task `i`; `transferJoin j` is
the joined outcome of the phase-2 worker spawned for the `j`-th resolved task.
The two semaphores (`jobs * 2` and `jobs` permits) only bound in-flight
concurrency and are abstracted away; `jobs` is kept for the signature. -/
def execute_downloads (resolveJoin : Nat → JoinOutcome (Except String ResolvedUrl))
    (transferJoin : Nat → JoinOutcome TransferStep)
    (tasks : List DownloadTask) (jobs : Nat) : List DownloadResult :=
  let _ := jobs
  let step1 := tasks.enum.foldl (phase1Step resolveJoin) ([], [])
  let results2 := step1.1.enum.map (transferResultOf transferJoin)
  step1.2 ++ results2

/-! ## Rust path semantics and archive extraction (archive.rs)

`std::path::Path::join` and `starts_with` work on components without
resolving `..`; both are modelled exactly, together with a normalization
function used to state containment. -/

/-- One path component (`std::path::Component`, Unix, without `CurDir`). -/
inductive PathComp where
  | parent
  | normal (s : String)
deriving Repr, DecidableEq

/-- A Unix path as its components. -/
structure RustPath where
  absolute : Bool
  comps : List PathComp
deriving Repr, DecidableEq

/-- Parse one textual component (empty and `.` disappear, as in
`Path::components`). -/
def parseComp (s : String) : Option PathComp :=
  if s = "" || s = "." then none
  else if s = ".." then some .parent
  else some (.normal s)

/-- Parse a path string into components. -/
def parseRustPath (s : String) : RustPath :=
  ⟨strStartsWith s "/", (strSplitOn s "/").filterMap parseComp⟩

/-- `Path::join`: an absolute argument replaces the base, a relative one is
appended component-wise — `..` is not resolved. -/
def rustJoin (base : RustPath) (s : String) : RustPath :=
  let p := parseRustPath s
  if p.absolute then p else ⟨base.absolute, base.comps ++ p.comps⟩

/-- `Path::starts_with`: component-wise prefix — `..` is not resolved. -/
def rustStartsWith (p base : RustPath) : Bool :=
  p.absolute == base.absolute && base.comps.isPrefixOf p.comps

/-- One step of lexical `..` resolution over a reversed stack. -/
def normStep (stack : List PathComp) (c : PathComp) : List PathComp :=
  match c with
  | .normal s => .normal s :: stack
  | .parent =>
    match stack with
    | .normal _ :: rest => rest
    | _ => .parent :: stack

/-- Lexically resolve `..` against preceding normal components (leading `..`
segments survive). -/
def normalizeComps (cs : List PathComp) : List PathComp :=
  (cs.foldl normStep []).reverse

/-- After lexical resolution, does `p` still lie inside `root`?  This is the
actual containment property the zip-slip defense is meant to enforce. -/
def staysWithin (root p : RustPath) : Bool :=
  p.absolute == root.absolute &&
    (normalizeComps root.comps).isPrefixOf (normalizeComps p.comps)

/-- A zip entry as `extract_zip` reads it: raw name bytes and the directory
flag. -/
structure ZipEntry where
  name_raw : List Nat
  is_dir : Bool

/-- Filesystem effects of extraction, in order. -/
inductive FsEvent where
  | mkdirAll (p : RustPath)
  | createFile (p : RustPath)
  | warnTraversal (name : String)
deriving Repr, DecidableEq

/-- Entry-name decoding in `extract_zip`: UTF-8 first, Shift-JIS (an external
decoder, abstracted) on invalid UTF-8. -/
def zipEntryName (shiftJisDecode : List Nat → String) (raw : List Nat) : String :=
  match utf8Decode raw with
  | some s => s
  | none => shiftJisDecode raw

/-- `Path::parent`: drop the last component. -/
def rustParent (p : RustPath) : Option RustPath :=
  match p.comps with
  | [] => none
  | _ => some ⟨p.absolute, p.comps.dropLast⟩

/-- Processing of one zip entry (archive.rs lines 72-101): decode the name,
join, run the `starts_with` containment check, then create the directory or
the parent directories plus the file. -/
def zipEntryEvents (shiftJisDecode : List Nat → String) (output_dir : RustPath)
    (e : ZipEntry) : List FsEvent :=
  let name := zipEntryName shiftJisDecode e.name_raw
  let path := rustJoin output_dir name
  if !(rustStartsWith path output_dir) then [.warnTraversal name]
  else if e.is_dir then [.mkdirAll path]
  else
    (match rustParent path with
     | some par => [.mkdirAll par]
     | none => []) ++ [.createFile path]

/-- `extract_zip` from archive.rs, as the list of filesystem events it
performs (write failures are not modelled; they only truncate the list). -/
def extract_zip (shiftJisDecode : List Nat → String) (entries : List ZipEntry)
    (output_dir : RustPath) : List FsEvent :=
  (entries.map (zipEntryEvents shiftJisDecode output_dir)).flatten

/-- An LZH entry as `extract_lzh` reads it: the parsed pathname and the
directory flag (the CRC check happens after writing and is not modelled). -/
structure LzhEntry where
  pathname : String
  is_dir : Bool

/-- Processing of one LZH entry (archive.rs lines 143-172): same
`starts_with` containment check as zip. -/
def lzhEntryEvents (output_dir : RustPath) (e : LzhEntry) : List FsEvent :=
  let dest := rustJoin output_dir e.pathname
  if !(rustStartsWith dest output_dir) then [.warnTraversal e.pathname]
  else if e.is_dir then [.mkdirAll dest]
  else
    (match rustParent dest with
     | some par => [.mkdirAll par]
     | none => []) ++ [.createFile dest]

/-- `extract_lzh` from archive.rs, as the list of filesystem events it
performs. -/
def extract_lzh (entries : List LzhEntry) (output_dir : RustPath) : List FsEvent :=
  (entries.map (lzhEntryEvents output_dir)).flatten

/-! ## Extraction workspace life cycle (archive.rs `extract_archive`,
main.rs `extract_and_normalize`) -/

/-- Render a path back to a string. -/
def renderComp : PathComp → String
  | .parent => ".."
  | .normal s => s

/-- Render a `RustPath` to a string. -/
def renderPath (p : RustPath) : String :=
  (if p.absolute then "/" else "") ++ strIntercalate "/" (p.comps.map renderComp)

/-- `Path::file_stem` on a file name: the part before the last `.`, except
that a leading `.` is not an extension separator. -/
def fileStemOfName (name : String) : String :=
  let dots := (List.range name.data.length).filter (fun i => name.data.getD i ' ' = '.')
  match dots.getLast? with
  | some i => if i = 0 then name else ⟨name.data.take i⟩
  | none => name

/-- `Path::file_stem` of a path string. -/
def file_stem (p : String) : Option String :=
  match (parseRustPath p).comps.getLast? with
  | some (.normal name) => some (fileStemOfName name)
  | _ => none

/-- `Path::parent` of a path string, rendered. -/
def rustParentStr (p : String) : Option String :=
  let parsed := parseRustPath p
  match parsed.comps with
  | [] => none
  | _ => some (renderPath ⟨parsed.absolute, parsed.comps.dropLast⟩)

/-- Workspace-related filesystem effects, in order. -/
inductive WsEvent where
  | createdDir (p : String)
  | removedDirAll (p : String)
  | removedFile (p : String)
deriving Repr, DecidableEq

/-- `extract` from archive.rs, at workspace granularity: format detection
happens before the output directory is created; the per-format unpack then
succeeds or fails (`detectOk`/`unpackOk` abstract those two outcomes). -/
def extract_ws (detectOk unpackOk : Bool) (output_dir : String) :
    Except String Unit × List WsEvent :=
  if !detectOk then (.error "unknown archive format", [])
  else if unpackOk then (.ok (), [.createdDir output_dir])
  else (.error "unpack failed", [.createdDir output_dir])

/-- `extract_archive` from archive.rs: extract into `.<stem>_extracted` under
`base_dir` and return that directory for cleanup by the caller. -/
def extract_archive (detectOk unpackOk : Bool) (archive_path base_dir : String) :
    Except String String × List WsEvent :=
  let stem := (file_stem archive_path).getD "extracted"
  let extract_dir := base_dir ++ "/." ++ stem ++ "_extracted"
  match extract_ws detectOk unpackOk extract_dir with
  | (.ok _, ev) => (.ok extract_dir, ev)
  | (.error e, ev) => (.error e, ev)

/-- `extract_and_normalize` from main.rs: extract, flatten, relocate, then
remove the workspace and the archive.  `flattenOk`/`relocOk` abstract the
outcomes of `flatten_single_subdirs` and the relocation loop; every failing
step propagates with `?` before the cleanup statements run. -/
def extract_and_normalize (detectOk unpackOk flattenOk relocOk : Bool)
    (archive_path : String) : Except String Unit × List WsEvent :=
  match rustParentStr archive_path with
  | none => (.error "archive has no parent directory", [])
  | some parent =>
    match extract_archive detectOk unpackOk archive_path parent with
    | (.error e, ev) => (.error e, ev)
    | (.ok extract_dir, ev) =>
      if !flattenOk then (.error "flatten failed", ev)
      else if !relocOk then (.error "relocate failed", ev)
      else (.ok (), ev ++ [.removedDirAll extract_dir, .removedFile archive_path])

/-! ## Concrete instances used in demonstrations -/

/-- A network oracle in which every network resolver fails (nothing below
depends on its answers when only pure arms are exercised). -/
def noNet : NetResolvers :=
  ⟨fun _ => .error "offline", fun _ => .error "offline", fun _ => .error "offline"⟩

/-- Demonstration phase-1 joins: task 0 resolves, task 1 fails resolution,
every later task's worker panics. -/
def rjDemo : Nat → JoinOutcome (Except String ResolvedUrl) :=
  fun i =>
    if i = 0 then .ok (.ok ⟨"https://a.example/x.zip", "https://a.example/x.zip"⟩)
    else if i = 1 then .ok (.error "no candidate")
    else .panicked "worker panicked"

/-- Demonstration phase-2 joins: every transfer succeeds. -/
def tjDemo : Nat → JoinOutcome TransferStep := fun _ => .ok (.dlOk "out/x.zip")

/-- Demonstration task. -/
def taskDemo (n : String) : DownloadTask :=
  ⟨"https://t.example/" ++ n, "out", n ++ ".zip", n⟩

/-- The filesystem-unsafe characters named by the sanitization rule. -/
def unsafeChars : List Char :=
  ['/', '\\', ':', '*', '?', '"', '<', '>', '|', Char.ofNat 0]

/-!
# Theorems
-/

/-! ## Generic helper lemmas -/

theorem strContains_append_mid (a b c : String) : strContains (a ++ b ++ c) b = true := by
  simp only [strContains, decide_eq_true_eq]
  exact ⟨a.data, c.data, by simp [String.data_append]⟩

theorem strContains_append_left (l : String) {s pat : String}
    (h : strContains s pat = true) : strContains (l ++ s) pat = true := by
  simp only [strContains, decide_eq_true_eq] at h ⊢
  obtain ⟨x, y, hxy⟩ := h
  exact ⟨l.data ++ x, y, by simp [String.data_append, ← hxy]⟩

theorem strContains_suffix (a b : String) : strContains (a ++ b) b = true := by
  simp only [strContains, decide_eq_true_eq]
  exact ⟨a.data, [], by simp [String.data_append]⟩

theorem strContains_self (s : String) : strContains s s = true := by
  simp only [strContains, decide_eq_true_eq]
  exact ⟨[], [], by simp⟩

theorem strContains_strIntercalate {α : Type} (sep : String) (f : α → String) :
    ∀ (l : List α) (x : α), x ∈ l →
      strContains (strIntercalate sep (l.map f)) (f x) = true
  | [], x, hx => absurd hx (List.not_mem_nil x)
  | [y], x, hx => by
    have hxy : x = y := by simpa using hx
    subst hxy
    simpa [strIntercalate] using strContains_self (f x)
  | y :: z :: rest, x, hx => by
    rcases List.mem_cons.mp hx with h | h
    · subst h
      show strContains (f x ++ sep ++ strIntercalate sep ((z :: rest).map f)) (f x) = true
      simp only [strContains, decide_eq_true_eq]
      exact ⟨[], sep.data ++ (strIntercalate sep ((z :: rest).map f)).data,
        by simp [String.data_append]⟩
    · have ih := strContains_strIntercalate sep f (z :: rest) x h
      show strContains (f y ++ sep ++ strIntercalate sep ((z :: rest).map f)) (f x) = true
      rw [String.append_assoc]
      exact strContains_append_left (f y) (strContains_append_left sep ih)

/-! ## C1 — the zip-slip check -/

/-- C1: the spec claims a zip or LZH entry named `../../evil` is skipped with a
warning and nothing is created outside the output directory.  In the code the
check is `output_dir.join(name).starts_with(output_dir)`; `Path::join` does not
resolve `..`, so `out/../../evil` passes the component-wise `starts_with` check,
no warning is emitted, and the file is created at a path that lexically escapes
the output root — in both `extract_zip` and `extract_lzh`. -/
theorem zip_slip_traversal_not_skipped :
    extract_zip (fun _ => "") [⟨[46, 46, 47, 46, 46, 47, 101, 118, 105, 108], false⟩]
        (parseRustPath "out") =
      [.mkdirAll ⟨false, [.normal "out", .parent, .parent]⟩,
       .createFile ⟨false, [.normal "out", .parent, .parent, .normal "evil"]⟩] ∧
    utf8Decode [46, 46, 47, 46, 46, 47, 101, 118, 105, 108] = some "../../evil" ∧
    rustStartsWith (rustJoin (parseRustPath "out") "../../evil") (parseRustPath "out") = true ∧
    staysWithin (parseRustPath "out") (rustJoin (parseRustPath "out") "../../evil") = false ∧
    extract_lzh [⟨"../../evil", false⟩] (parseRustPath "out") =
      [.mkdirAll ⟨false, [.normal "out", .parent, .parent]⟩,
       .createFile ⟨false, [.normal "out", .parent, .parent, .normal "evil"]⟩] := by
  refine ⟨by decide, by decide, by decide, by decide, by decide⟩

/-! ## C3 — retry policy -/

/-- C3: `download_file` makes exactly one attempt when the first attempt fails
with an HTTP 4xx-class status (whose rendered message contains
"status client error"), and exactly three attempts when every attempt fails
retryably, sleeping 4 s before attempt 2 and 16 s before attempt 3 and
returning the last error. -/
theorem download_retry_policy :
    (∀ (tryResult : Nat → Except String String) (e : String),
      tryResult 0 = .error e → strContains e "status client error" = true →
      download_file tryResult = (.error e, 1, [])) ∧
    (∀ (tryResult : Nat → Except String String) (e0 e1 e2 : String),
      tryResult 0 = .error e0 → tryResult 1 = .error e1 → tryResult 2 = .error e2 →
      is_retryable e0 = true → is_retryable e1 = true → is_retryable e2 = true →
      download_file tryResult = (.error e2, 3, [4, 16])) := by
  constructor
  · intro tryResult e h0 hc
    have hr : is_retryable e = false := by simp [is_retryable, hc]
    simp [download_file, download_file_go, h0, hr]
  · intro tryResult e0 e1 e2 h0 h1 h2 r0 r1 r2
    simp [download_file, download_file_go, h0, h1, h2, r0, r1, r2]

/-- Witness for C3 at a concrete 404 message and a concrete connection-reset
message. -/
theorem download_retry_policy_witness :
    download_file
        (fun _ => .error "HTTP status client error (404 Not Found) for url (https://a.example/x.zip)") =
      (.error "HTTP status client error (404 Not Found) for url (https://a.example/x.zip)", 1, []) ∧
    download_file (fun _ => .error "connection reset by peer") =
      (.error "connection reset by peer", 3, [4, 16]) :=
  ⟨download_retry_policy.1 _ _ rfl (by decide),
   download_retry_policy.2 _ _ _ _ rfl rfl rfl (by decide) (by decide) (by decide)⟩

/-! ## C7 — extraction workspace life cycle -/

/-- C7 counterexample: the spec claims the `.<stem>_extracted` workspace is
deleted on every exit path.  When the unpack step fails, `extract_archive`
propagates the error with `?` and `extract_and_normalize` returns before its
cleanup statements: the workspace directory was created and is never
removed. -/
theorem workspace_not_removed_on_failure_cex :
    extract_and_normalize true false true true "out/pkg.zip" =
      (.error "unpack failed", [.createdDir "out/.pkg_extracted"]) ∧
    WsEvent.removedDirAll "out/.pkg_extracted" ∉
      (extract_and_normalize true false true true "out/pkg.zip").2 := by
  refine ⟨rfl, by decide⟩

/-- C7 amended: the workspace and the original archive are removed exactly
when format detection, unpack, flattening and relocation all succeed; the
workspace exists from successful detection on, so on a failed unpack,
flatten or relocation it is left on disk. -/
theorem workspace_cleanup_success_only :
    ∀ (detectOk unpackOk flattenOk relocOk : Bool) (archive_path parent : String),
      rustParentStr archive_path = some parent →
      ((extract_and_normalize detectOk unpackOk flattenOk relocOk archive_path).1 = .ok () ↔
        (detectOk && unpackOk && flattenOk && relocOk) = true) ∧
      (WsEvent.removedDirAll
          (parent ++ "/." ++ ((file_stem archive_path).getD "extracted") ++ "_extracted") ∈
          (extract_and_normalize detectOk unpackOk flattenOk relocOk archive_path).2 ↔
        (detectOk && unpackOk && flattenOk && relocOk) = true) ∧
      (WsEvent.createdDir
          (parent ++ "/." ++ ((file_stem archive_path).getD "extracted") ++ "_extracted") ∈
          (extract_and_normalize detectOk unpackOk flattenOk relocOk archive_path).2 ↔
        detectOk = true) ∧
      ((detectOk && unpackOk && flattenOk && relocOk) = true →
        WsEvent.removedFile archive_path ∈
          (extract_and_normalize detectOk unpackOk flattenOk relocOk archive_path).2) := by
  intro detectOk unpackOk flattenOk relocOk archive_path parent hp
  cases detectOk <;> cases unpackOk <;> cases flattenOk <;> cases relocOk <;>
    simp [extract_and_normalize, extract_archive, extract_ws, hp]

/-- Witness for C7's amended claim on a concrete all-success run. -/
theorem workspace_cleanup_success_only_witness :
    (extract_and_normalize true true true true "out/pkg.zip").1 = .ok () ↔
      (true && true && true && true) = true :=
  (workspace_cleanup_success_only true true true true "out/pkg.zip" "out" (by decide)).1

/-! ## C5 — Dropbox rewrite -/

/-- C5: for a Dropbox URL whose query ends in `dl=0` (and has no other `dl`
parameter), `resolve_dropbox` returns the same URL with that pair replaced by
`dl=1` and all other pairs preserved in order; for every parsed URL the
returned URL's query contains `dl=1`; and the concrete scenario from the spec
holds. -/
theorem resolve_dropbox_direct_flag :
    (∀ (raw : String) (u : Uri) (qs : List (String × String)),
      parseUri raw = some u → u.queryPairs = qs ++ [("dl", "0")] →
      (∀ kv ∈ qs, kv.1 ≠ "dl") →
      resolve_dropbox raw =
        .ok ⟨uriToString { u with query := some (serializePairs (qs ++ [("dl", "1")])) },
             raw⟩) ∧
    (∀ (raw : String) (u : Uri), parseUri raw = some u →
      ∃ newq, resolve_dropbox raw = .ok ⟨uriToString { u with query := some newq }, raw⟩ ∧
        strContains newq "dl=1" = true) ∧
    resolve_dropbox "https://www.dropbox.com/s/abc/pkg.zip?foo=bar&dl=0" =
      .ok ⟨"https://www.dropbox.com/s/abc/pkg.zip?foo=bar&dl=1",
           "https://www.dropbox.com/s/abc/pkg.zip?foo=bar&dl=0"⟩ := by
  refine ⟨?_, ?_, rfl⟩
  · intro raw u qs hp hq hnd
    have hmap : u.queryPairs.map (fun kv => if kv.1 = "dl" then (kv.1, "1") else kv) =
        qs ++ [("dl", "1")] := by
      rw [hq, List.map_append]
      congr 1
      calc qs.map (fun kv => if kv.1 = "dl" then (kv.1, "1") else kv)
          = qs.map id := List.map_congr_left (fun kv hkv => by simp [hnd kv hkv])
        _ = qs := List.map_id qs
    have hany : (u.queryPairs.map
        (fun kv => if kv.1 = "dl" then (kv.1, "1") else kv)).any
        (fun kv => kv.1 = "dl") = true := by
      rw [hmap]; simp
    simp [resolve_dropbox, hp, hmap, hany]
  · intro raw u hp
    by_cases hdl : u.queryPairs.any (fun kv => kv.1 = "dl") = true
    · have hany2 : (u.queryPairs.map
          (fun kv => if kv.1 = "dl" then (kv.1, "1") else kv)).any
          (fun kv => kv.1 = "dl") = true := by
        rw [List.any_map]
        have hcomp : ((fun kv : String × String => decide (kv.1 = "dl")) ∘
            (fun kv => if kv.1 = "dl" then (kv.1, "1") else kv)) =
            (fun kv : String × String => decide (kv.1 = "dl")) := by
          funext kv
          by_cases h : kv.1 = "dl" <;> simp [h]
        simpa [hcomp] using hdl
      obtain ⟨kv, hkv, hkey⟩ := List.any_eq_true.mp hdl
      have hmem : ("dl", "1") ∈ u.queryPairs.map
          (fun kv => if kv.1 = "dl" then (kv.1, "1") else kv) :=
        List.mem_map.mpr ⟨kv, hkv, by simp [of_decide_eq_true hkey]⟩
      refine ⟨serializePairs (u.queryPairs.map
        (fun kv => if kv.1 = "dl" then (kv.1, "1") else kv)), ?_, ?_⟩
      · simp [resolve_dropbox, hp, hany2]
      · have hc := strContains_strIntercalate "&"
          (fun kv => formEncode kv.1 ++ "=" ++ formEncode kv.2)
          (u.queryPairs.map (fun kv => if kv.1 = "dl" then (kv.1, "1") else kv))
          ("dl", "1") hmem
        have heq : formEncode "dl" ++ "=" ++ formEncode "1" = "dl=1" := by decide
        simpa [serializePairs, heq] using hc
    · have hany2 : (u.queryPairs.map
          (fun kv => if kv.1 = "dl" then (kv.1, "1") else kv)).any
          (fun kv => kv.1 = "dl") = false := by
        rw [List.any_map]
        have hcomp : ((fun kv : String × String => decide (kv.1 = "dl")) ∘
            (fun kv => if kv.1 = "dl" then (kv.1, "1") else kv)) =
            (fun kv : String × String => decide (kv.1 = "dl")) := by
          funext kv
          by_cases h : kv.1 = "dl" <;> simp [h]
        rw [hcomp]
        exact Bool.eq_false_iff.mpr (fun habs => hdl habs)
      refine ⟨(match u.query with
        | some q => if q = "" then "dl=1" else q ++ "&dl=1"
        | none => "dl=1"), ?_, ?_⟩
      · simp [resolve_dropbox, hp, hany2]
      · cases hu : u.query with
        | none => simpa using strContains_self "dl=1"
        | some q =>
          by_cases hqe : q = ""
          · simpa [hqe] using strContains_self "dl=1"
          · have : strContains ("&dl=1" : String) "dl=1" = true := by decide
            simpa [hqe] using strContains_append_left q this

/-- Witness for C5 on the spec's concrete Dropbox URL. -/
theorem resolve_dropbox_direct_flag_witness :
    resolve_dropbox "https://www.dropbox.com/s/abc/pkg.zip?foo=bar&dl=0" =
      .ok ⟨uriToString { scheme := "https", host := "www.dropbox.com", path := "/s/abc/pkg.zip",
                         query := some (serializePairs ([("foo", "bar")] ++ [("dl", "1")])) },
           "https://www.dropbox.com/s/abc/pkg.zip?foo=bar&dl=0"⟩ :=
  resolve_dropbox_direct_flag.1 "https://www.dropbox.com/s/abc/pkg.zip?foo=bar&dl=0"
    ⟨"https", "www.dropbox.com", "/s/abc/pkg.zip", some "foo=bar&dl=0"⟩
    [("foo", "bar")] (by decide) (by decide) (by decide)

/-! ## C6 — Google Drive rewrite -/

/-- C6: for a URL with a `/file/d/{id}` path segment, `resolve_google_drive`
succeeds (it performs no network access — it is a pure function of the URL)
and returns the export-download URL containing `id={id}` and `confirm=t`; the
`?id=` query parameter is used when the path yields no id; and the spec's
concrete scenario holds. -/
theorem resolve_google_drive_rewrite :
    (∀ (raw : String) (u : Uri) (fid : String),
      parseUri raw = some u → driveIdFromPath u.path = some fid →
      resolve_google_drive raw =
        .ok ⟨"https://drive.google.com/uc?export=download&id=" ++ fid ++ "&confirm=t", raw⟩ ∧
      strContains ("https://drive.google.com/uc?export=download&id=" ++ fid ++ "&confirm=t")
        ("id=" ++ fid) = true ∧
      strContains ("https://drive.google.com/uc?export=download&id=" ++ fid ++ "&confirm=t")
        "confirm=t" = true) ∧
    (∀ (raw : String) (u : Uri) (k v : String),
      parseUri raw = some u → driveIdFromPath u.path = none →
      u.queryPairs.find? (fun kv => kv.1 = "id") = some (k, v) →
      resolve_google_drive raw =
        .ok ⟨"https://drive.google.com/uc?export=download&id=" ++ v ++ "&confirm=t", raw⟩) ∧
    resolve_google_drive "https://drive.google.com/file/d/ABC123/view" =
      .ok ⟨"https://drive.google.com/uc?export=download&id=ABC123&confirm=t",
           "https://drive.google.com/file/d/ABC123/view"⟩ := by
  refine ⟨?_, ?_, rfl⟩
  · intro raw u fid hp hd
    refine ⟨by simp [resolve_google_drive, hp, hd], ?_, ?_⟩
    · have h1 : ("https://drive.google.com/uc?export=download&id=" : String) =
          "https://drive.google.com/uc?export=download&" ++ "id=" := rfl
      rw [h1, String.append_assoc "https://drive.google.com/uc?export=download&" "id=" fid]
      exact strContains_append_mid _ _ _
    · have h2 : ("&confirm=t" : String) = "&" ++ "confirm=t" := rfl
      rw [h2, ← String.append_assoc]
      exact strContains_suffix _ _
  · intro raw u k v hp hd hfind
    simp [resolve_google_drive, hp, hd, hfind]

/-- Witness for C6 on the spec's concrete Drive URL. -/
theorem resolve_google_drive_rewrite_witness :
    resolve_google_drive "https://drive.google.com/file/d/ABC123/view" =
      .ok ⟨"https://drive.google.com/uc?export=download&id=" ++ "ABC123" ++ "&confirm=t",
           "https://drive.google.com/file/d/ABC123/view"⟩ :=
  (resolve_google_drive_rewrite.1 "https://drive.google.com/file/d/ABC123/view"
    ⟨"https", "drive.google.com", "/file/d/ABC123/view", none⟩ "ABC123"
    (by decide) (by decide)).1

/-! ## C2 — `original` across a recursive hop -/

/-- C2 counterexample: the spec claims a resolution through a recursive hop
reports the top-level input URL in `original`.  Scanning the candidates of
`https://example.com/page` and hitting a Dropbox candidate, the recursive
`resolve_url` call is handed the candidate itself, so `original` is the
candidate, not the top-level URL. -/
theorem recursive_hop_original_cex :
    find_download_from_candidates noNet ["https://www.dropbox.com/s/x/file?dl=0"]
        "https://example.com/page" =
      some (.ok ⟨"https://www.dropbox.com/s/x/file?dl=1",
                 "https://www.dropbox.com/s/x/file?dl=0"⟩) ∧
    "https://www.dropbox.com/s/x/file?dl=0" ≠ "https://example.com/page" := by
  refine ⟨rfl, by decide⟩

/-- C2 amended: when the first accepted candidate is a hosting-domain link,
`find_download_from_candidates` returns `resolve_url` applied to the
*candidate* unchanged; in particular for a Dropbox-host candidate the
`original` field is the candidate URL (the top-level URL is recorded only for
candidates accepted by archive extension). -/
theorem recursive_hop_returns_candidate_original :
    (∀ (net : NetResolvers) (pre : List String) (c : String) (rest : List String)
      (raw : String),
      (∀ x ∈ pre, candidateIsArchive x = false ∧ candidateIsHosting x = false) →
      candidateIsArchive c = false → candidateIsHosting c = true →
      find_download_from_candidates net (pre ++ c :: rest) raw =
        some (resolve_url net c)) ∧
    (∀ (net : NetResolvers) (c : String) (u : Uri),
      parseUri c = some u →
      u.host = "dropbox.com" ∨ u.host = "www.dropbox.com" ∨
        u.host = "dl.dropboxusercontent.com" →
      ∃ r, resolve_url net c = .ok r ∧ r.original = c) := by
  constructor
  · intro net pre
    induction pre with
    | nil =>
      intro c rest raw _ hA hH
      simp [find_download_from_candidates, hA, hH]
    | cons x xs ih =>
      intro c rest raw hpre hA hH
      have hx := hpre x (List.mem_cons_self x xs)
      have tail := ih c rest raw (fun y hy => hpre y (List.mem_cons_of_mem x hy)) hA hH
      simpa [find_download_from_candidates, hx.1, hx.2] using tail
  · intro net c u hp hh
    have hru : resolve_url net c = resolve_dropbox c := by
      rcases hh with h | h | h <;> simp [resolve_url, hp, h]
    rw [hru]
    unfold resolve_dropbox
    rw [hp]
    exact ⟨_, rfl, rfl⟩

/-- Witness for C2's amended claim on a concrete candidate list. -/
theorem recursive_hop_returns_candidate_original_witness :
    find_download_from_candidates noNet
        ["https://example.com/notes.html", "https://www.dropbox.com/s/x/file?dl=0"]
        "https://example.com/page" =
      some (resolve_url noNet "https://www.dropbox.com/s/x/file?dl=0") :=
  recursive_hop_returns_candidate_original.1 noNet ["https://example.com/notes.html"]
    "https://www.dropbox.com/s/x/file?dl=0" [] "https://example.com/page"
    (by decide) (by decide) (by decide)

/-! ## C8 — post-rename markup re-validation -/

theorem fsLookup_fsSet_self (fs : FS) (p : String) (v : List Nat) :
    fsLookup (fsSet fs p v) p = some v := by
  simp [fsLookup, fsSet, List.find?_cons]

theorem fsRename_lookup (fs : FS) (src dst : String) (v : List Nat)
    (h : fsLookup fs src = some v) : fsLookup (fsRename fs src dst) dst = some v := by
  simp [fsRename, h, fsLookup_fsSet_self]

/-- C8: whenever `save_response` reports success, the bytes at the final
destination are the streamed body and they do not match the markup heuristic —
for every heuristic `isHtml`, since the check is re-run on the renamed file's
actual bytes. -/
theorem save_response_success_not_markup :
    ∀ (isHtml : List Nat → Bool) (resp : HttpResponse) (odir fb : String) (fs : FS)
      (dest : String) (fs' : FS),
      save_response isHtml resp odir fb fs = (.ok dest, fs') →
      fsLookup fs' dest = some resp.body ∧ isHtml resp.body = false := by
  intro isHtml resp odir fb fs dest fs' h
  have hl : fsLookup
      (fsRename (fsSet fs (odir ++ "/." ++ usedFilename resp fb ++ ".tmp") resp.body)
        (odir ++ "/." ++ usedFilename resp fb ++ ".tmp")
        (odir ++ "/" ++ usedFilename resp fb))
      (odir ++ "/" ++ usedFilename resp fb) = some resp.body :=
    fsRename_lookup _ _ _ _ (fsLookup_fsSet_self _ _ _)
  simp only [save_response] at h
  rw [hl] at h
  simp only [Option.getD_some] at h
  cases hhtml : isHtml resp.body with
  | true => simp [hhtml] at h
  | false =>
    rw [if_neg (by simp [hhtml])] at h
    obtain ⟨h1, h2⟩ := Prod.mk.injEq .. ▸ h
    have hdest : odir ++ "/" ++ usedFilename resp fb = dest := Except.ok.inj h1
    refine ⟨?_, rfl⟩
    rw [← hdest, ← h2]
    exact hl

/-- Witness for C8 on a concrete successful save. -/
theorem save_response_success_not_markup_witness :
    fsLookup [("out/x.zip", [80, 75, 3, 4])] "out/x.zip" = some [80, 75, 3, 4] ∧
    decide ([80, 75, 3, 4] = [60, 104]) = false :=
  save_response_success_not_markup (fun bs => decide (bs = [60, 104]))
    ⟨none, "https://h.example/a/x.zip", [80, 75, 3, 4]⟩ "out" "fb.zip" []
    "out/x.zip" [("out/x.zip", [80, 75, 3, 4])] rfl

/-! ## C9 — filename selection -/

/-- C9 counterexample: the spec claims every filesystem-unsafe character in
the name that is used is replaced with `_`.  When header and URL yield no name
the caller-supplied fallback is used *as-is*: a fallback containing `/` is not
sanitized. -/
theorem fallback_name_unsanitized_cex :
    usedFilename ⟨none, "https://example.com/dir/", []⟩ "a/b" = "a/b" ∧
    strContains "a/b" "/" = true := by
  refine ⟨rfl, by decide⟩

/-- C9 amended: the selection precedence is the `Content-Disposition` name
(RFC 5987 `filename*=UTF-8''...` preferred over plain `filename=`), then the
percent-decoded final URL path segment, then the caller-supplied fallback;
header- and URL-derived names are sanitized (the sanitizer's output never
contains an unsafe character), but the fallback is used unsanitized. -/
theorem filename_selection_amended :
    (∀ (hdr urlS fb : String) (body : List Nat) (name : String),
      parse_content_disposition hdr = some name →
      usedFilename ⟨some hdr, urlS, body⟩ fb = sanitize_filename name) ∧
    (∀ (hdr urlS fb : String) (body : List Nat),
      parse_content_disposition hdr = none →
      usedFilename ⟨some hdr, urlS, body⟩ fb = usedFilename ⟨none, urlS, body⟩ fb) ∧
    (∀ (resp : HttpResponse) (fb : String),
      extract_filename resp resp.finalUrl = none → usedFilename resp fb = fb) ∧
    (∀ (s : String), ∀ c ∈ (sanitize_filename s).data, c ∉ unsafeChars) ∧
    parse_content_disposition
      "attachment; filename*=UTF-8''sta%20r.zip; filename=\"plain.zip\"" = some "sta r.zip" ∧
    parse_content_disposition "attachment; filename=\"pla:in.zip\"" = some "pla:in.zip" ∧
    usedFilename ⟨some "attachment; filename=\"pla:in.zip\"",
      "https://h.example/a/url.zip", []⟩ "fb.zip" = "pla_in.zip" ∧
    usedFilename ⟨none, "https://h.example/a/b%20c.zip", []⟩ "fb.zip" = "b c.zip" := by
  refine ⟨?_, ?_, ?_, ?_, by decide, by decide, by decide, by decide⟩
  · intro hdr urlS fb body name hpd
    simp [usedFilename, extract_filename, hpd]
  · intro hdr urlS fb body hpd
    simp [usedFilename, extract_filename, hpd]
  · intro resp fb hnone
    simp [usedFilename, hnone]
  · intro s c hc
    simp only [sanitize_filename, List.mem_map] at hc
    obtain ⟨x, _, hfx⟩ := hc
    rw [← hfx]
    split
    · decide
    · next hcond =>
      simp only [Bool.or_eq_true, decide_eq_true_eq, not_or] at hcond
      simp [unsafeChars, hcond]

/-- Witness for C9's amended claim: header-derived name sanitized and used,
and fallback used when header and URL both yield nothing. -/
theorem filename_selection_amended_witness :
    usedFilename ⟨some "attachment; filename=\"x.zip\"", "https://h.example/a/y.zip", []⟩
      "fb.zip" = sanitize_filename "x.zip" ∧
    usedFilename ⟨none, "https://h.example/a/", []⟩ "fb.zip" = "fb.zip" :=
  ⟨filename_selection_amended.1 "attachment; filename=\"x.zip\""
      "https://h.example/a/y.zip" "fb.zip" [] "x.zip" (by decide),
   filename_selection_amended.2.2.1 ⟨none, "https://h.example/a/", []⟩ "fb.zip" (by decide)⟩

/-! ## C4 and C10 — outcome accounting and ordering of `execute_downloads` -/

theorem phase1_foldl_eq (rj : Nat → JoinOutcome (Except String ResolvedUrl)) :
    ∀ (l : List (Nat × DownloadTask))
      (acc : List (ResolvedUrl × DownloadTask) × List DownloadResult),
      l.foldl (phase1Step rj) acc =
        (acc.1 ++ l.filterMap (phase1Resolved rj), acc.2 ++ l.filterMap (phase1Result rj))
  | [], acc => by simp
  | it :: l, acc => by
    rw [List.foldl_cons, phase1_foldl_eq rj l]
    cases hrj : rj it.1 with
    | ok res =>
      cases res with
      | ok r => simp [phase1Step, phase1Resolved, phase1Result, hrj]
      | error e => simp [phase1Step, phase1Resolved, phase1Result, hrj]
    | panicked m => simp [phase1Step, phase1Resolved, phase1Result, hrj]

theorem phase1_partition_length (rj : Nat → JoinOutcome (Except String ResolvedUrl)) :
    ∀ l : List (Nat × DownloadTask),
      (l.filterMap (phase1Result rj)).length + (l.filterMap (phase1Resolved rj)).length
        = l.length
  | [] => rfl
  | it :: l => by
    have ih := phase1_partition_length rj l
    cases hrj : rj it.1 with
    | ok res =>
      cases res with
      | ok r =>
        simp only [List.filterMap_cons, phase1Result, phase1Resolved, hrj,
          List.length_cons]
        omega
      | error e =>
        simp only [List.filterMap_cons, phase1Result, phase1Resolved, hrj,
          List.length_cons]
        omega
    | panicked m =>
      simp only [List.filterMap_cons, phase1Result, phase1Resolved, hrj,
        List.length_cons]
      omega

theorem execute_downloads_eq (rj : Nat → JoinOutcome (Except String ResolvedUrl))
    (tj : Nat → JoinOutcome TransferStep) (tasks : List DownloadTask) (jobs : Nat) :
    execute_downloads rj tj tasks jobs =
      tasks.enum.filterMap (phase1Result rj) ++
        ((tasks.enum.filterMap (phase1Resolved rj)).enum.map (transferResultOf tj)) := by
  unfold execute_downloads
  rw [phase1_foldl_eq rj tasks.enum ([], [])]
  simp

/-- C4: `execute_downloads` produces exactly one outcome per input task: the
result list's length equals the task list's length; a task whose resolution
fails contributes a `Skipped` outcome; a task whose phase-1 worker panics
contributes a `Failed` outcome; and every pair entering the transfer phase
comes from a task whose resolution succeeded (failed tasks never enter
phase 2). -/
theorem execute_downloads_outcome_per_task :
    ∀ (rj : Nat → JoinOutcome (Except String ResolvedUrl))
      (tj : Nat → JoinOutcome TransferStep) (tasks : List DownloadTask) (jobs : Nat),
      0 < jobs →
      (execute_downloads rj tj tasks jobs).length = tasks.length ∧
      (∀ it ∈ tasks.enum, ∀ e, rj it.1 = .ok (.error e) →
        DownloadResult.Skipped it.2.url e ∈ execute_downloads rj tj tasks jobs) ∧
      (∀ it ∈ tasks.enum, ∀ m, rj it.1 = .panicked m →
        DownloadResult.Failed "unknown" ("resolve task panicked: " ++ m) ∈
          execute_downloads rj tj tasks jobs) ∧
      (∀ p ∈ resolvedTasksOf rj tasks,
        ∃ it ∈ tasks.enum, rj it.1 = .ok (.ok p.1) ∧ it.2 = p.2) := by
  intro rj tj tasks jobs _
  refine ⟨?_, ?_, ?_, ?_⟩
  · rw [execute_downloads_eq]
    have hpart := phase1_partition_length rj tasks.enum
    have hlen : tasks.enum.length = tasks.length := List.enum_length
    simp only [List.length_append, List.length_map, List.enum_length]
    omega
  · intro it hit e hrj
    rw [execute_downloads_eq]
    exact List.mem_append_left _
      (List.mem_filterMap.mpr ⟨it, hit, by simp [phase1Result, hrj]⟩)
  · intro it hit m hrj
    rw [execute_downloads_eq]
    exact List.mem_append_left _
      (List.mem_filterMap.mpr ⟨it, hit, by simp [phase1Result, hrj]⟩)
  · intro p hp
    have hres : resolvedTasksOf rj tasks = tasks.enum.filterMap (phase1Resolved rj) := by
      unfold resolvedTasksOf
      rw [phase1_foldl_eq rj tasks.enum ([], [])]
      simp
    rw [hres] at hp
    obtain ⟨it, hit, hf⟩ := List.mem_filterMap.mp hp
    refine ⟨it, hit, ?_⟩
    unfold phase1Resolved at hf
    cases hrj : rj it.1 with
    | ok res =>
      cases res with
      | ok r =>
        rw [hrj] at hf
        obtain ⟨h1, h2⟩ := Prod.mk.injEq .. ▸ Option.some.inj hf
        exact ⟨by rw [← h1], h2⟩
      | error e => rw [hrj] at hf; exact absurd hf (by simp)
    | panicked m => rw [hrj] at hf; exact absurd hf (by simp)

/-- Witness for C4 on a concrete three-task run with `jobs = 1`. -/
theorem execute_downloads_outcome_per_task_witness :
    (execute_downloads rjDemo tjDemo [taskDemo "a", taskDemo "b", taskDemo "c"] 1).length
      = [taskDemo "a", taskDemo "b", taskDemo "c"].length :=
  (execute_downloads_outcome_per_task rjDemo tjDemo
    [taskDemo "a", taskDemo "b", taskDemo "c"] 1 (by decide)).1

/-- C10: the result list of `execute_downloads` is the phase-1 outcomes
(`Skipped` and resolve-panic `Failed`) in input order, followed by the
phase-2 outcomes in input order restricted to successfully resolved tasks;
with one resolved and one skipped task the skipped task's outcome precedes
the earlier resolved task's outcome, so overall input order is not
preserved. -/
theorem execute_downloads_phase_order :
    (∀ (rj : Nat → JoinOutcome (Except String ResolvedUrl))
      (tj : Nat → JoinOutcome TransferStep) (tasks : List DownloadTask) (jobs : Nat),
      execute_downloads rj tj tasks jobs =
        tasks.enum.filterMap (phase1Result rj) ++
          ((tasks.enum.filterMap (phase1Resolved rj)).enum.map (transferResultOf tj)) ∧
      phase1ResultsOf rj tasks = tasks.enum.filterMap (phase1Result rj) ∧
      resolvedTasksOf rj tasks = tasks.enum.filterMap (phase1Resolved rj)) ∧
    execute_downloads rjDemo tjDemo [taskDemo "a", taskDemo "b"] 1 =
      [DownloadResult.Skipped (taskDemo "b").url "no candidate",
       DownloadResult.Success "out/x.zip"] := by
  constructor
  · intro rj tj tasks jobs
    refine ⟨execute_downloads_eq rj tj tasks jobs, ?_, ?_⟩
    · unfold phase1ResultsOf
      rw [phase1_foldl_eq rj tasks.enum ([], [])]
      simp
    · unfold resolvedTasksOf
      rw [phase1_foldl_eq rj tasks.enum ([], [])]
      simp
  · rfl

end BmsDl
